import Mathlib

/-!
Shallow embedding of `trace-rs` (`src/lib.rs`): a call-stack-aware logging
primitive.  The function `_trace` captures a backtrace, diffs it against the
previously stored trace held in a process-wide state, and prints the message
with an indentation prefix.

External collaborators are modelled as inputs:
* `captured : Bool` — whether `Backtrace::capture` reported `Captured`;
* `capture : List String` — the chunks of the backtrace Debug string obtained
  by splitting at every frame terminator, listed in string order (innermost
  frame first, as `Backtrace`'s Debug output lists frames); the Rust code
  iterates them with `rsplit`, i.e. in reverse, which the embedding models by
  walking `capture.reverse`;
* the console sink is modelled by returning the printed line (`println!`
  appends a line terminator, modelled as `++ "\n"`).
Machine integers (`usize`) are modelled as `Nat`; every subtraction the Rust
code performs is shown to have minuend at least subtrahend.
-/

/-- Model of Rust `str::starts_with` over character lists: first argument is
the pattern, second the scanned list. -/
def charsStart : List Char → List Char → Bool
  | [], _ => true
  | _ :: _, [] => false
  | a :: as, b :: bs => a == b && charsStart as bs

/-- Model of Rust `str::contains` (substring search) over character lists. -/
def charsContain (pat : List Char) : List Char → Bool
  | [] => charsStart pat []
  | b :: bs => charsStart pat (b :: bs) || charsContain pat bs

/-- Model of Rust `str::contains` with a string pattern: `strContains s pat`
is true iff `pat` occurs as a contiguous substring of `s`. -/
def strContains (s pat : String) : Bool := charsContain pat.data s.data

/-- Model of Rust `str::contains` with a `char` pattern. -/
def strContainsChar (s : String) (c : Char) : Bool := s.data.contains c

/-- Model of Rust `str::repeat`: `n` copies of `s` concatenated. -/
def strRepeat (s : String) : Nat → String
  | 0 => ""
  | n + 1 => s ++ strRepeat s n

/-- Model of Rust `str::replace` with a `char` pattern: every occurrence of
`c` in `s` is replaced by `r`. -/
def replaceChar (s : String) (c : Char) (r : String) : String :=
  String.mk ((s.data.map (fun ch => if ch = c then r.data else [ch])).flatten)

/-- The lines of a character list: splitting at every occurrence of `c`.
A list with `n` occurrences of `c` yields `n + 1` pieces, none containing
`c`.  Used to state the multi-line-alignment property. -/
def splitOnChar (c : Char) : List Char → List (List Char)
  | [] => [[]]
  | ch :: rest =>
    match splitOnChar c rest with
    | [] => [[]]
    | l :: ls => if ch = c then [] :: l :: ls else (ch :: l) :: ls

/-- Number of occurrences of the character `c` in the string `s`. -/
def charCount (s : String) (c : Char) : Nat := s.data.count c

/-- Model of `module_path.split("::").next().unwrap()`: the prefix of the
module path before the first `::` separator (the caller's crate name). -/
def crateNameChars : List Char → List Char
  | [] => []
  | ':' :: ':' :: _ => []
  | ch :: rest => ch :: crateNameChars rest

/-- The caller's crate name, as extracted by `_trace` from `module_path`. -/
def crateName (module_path : String) : String :=
  String.mk (crateNameChars module_path.data)

/-- The pattern `fn: "trace::_trace"` used to recognise the frame of the
logging entry point itself (`module_path!()` inside the `trace` crate). -/
def trace_path : String := "fn: \"trace::_trace\""

/-- The pattern `fn: "<crate_name>::` used to recognise frames of the
caller's own crate. -/
def crate_path (module_path : String) : String :=
  "fn: \"" ++ crateName module_path ++ "::"

/-- The process-wide state guarded by `LAST_TRACE_INFO`: the previously
stored trace and the basis depth. -/
structure TraceState where
  last_trace : List String
  basis_depth : Nat
  deriving DecidableEq, Repr

/-- `Mutex::new((vec![], 0))`: the state at process start. -/
def initState : TraceState := ⟨[], 0⟩

/-- The loop state of the `'find_depth` walk in `_trace`. -/
structure WalkState where
  last_trace : List String
  trace_depth : Nat
  match_depth : Nat
  crate_depth : Nat
  deriving DecidableEq, Repr

/-- The `'find_depth` loop of `_trace`: walks the frame chunks (already in
`rsplit` order), breaking at the entry point's own frame; otherwise records
`crate_depth`, extends the common-prefix count, and stores the frame in
`last_trace` (overwriting in place below the captured initial length
`lastTraceDepth`, pushing beyond it). -/
def walkFrames (tracePath cratePath : String) (lastTraceDepth : Nat) :
    List String → WalkState → WalkState
  | [], s => s
  | frame :: rest, s =>
    if strContains frame tracePath = true then s
    else
      let crate_depth :=
        if s.crate_depth = 0 ∧ strContains frame cratePath = true then s.trace_depth
        else s.crate_depth
      let match_depth :=
        if s.trace_depth < lastTraceDepth ∧ s.match_depth = s.trace_depth ∧
            frame = s.last_trace.getD s.trace_depth "" then
          s.match_depth + 1
        else s.match_depth
      let last_trace :=
        if s.trace_depth < lastTraceDepth then s.last_trace.set s.trace_depth frame
        else s.last_trace ++ [frame]
      walkFrames tracePath cratePath lastTraceDepth rest
        ⟨last_trace, s.trace_depth + 1, match_depth, crate_depth⟩

/-- The observables of one `_trace` call: whether the plain-print fallback
was taken, the computed depths, whether a root reset occurred, the rendered
indentation prefix, the rendered block (prefix plus re-prefixed message),
the full printed output (with its line terminator), and the state left in
`LAST_TRACE_INFO`. -/
structure CallResult where
  fallback : Bool
  trace_depth : Nat
  match_depth : Nat
  crate_depth : Nat
  is_reset : Bool
  depth_text : String
  rendered : String
  output : String
  state : TraceState
  deriving DecidableEq, Repr

/-- The message body appended after the prefix: a message containing a line
break has every break replaced by a break, `(trace_depth - basis_depth)`
four-space blocks and one `|   ` marker. -/
def renderBody (text : String) (trace_depth basis_depth : Nat) : String :=
  if strContainsChar text '\n' = true then
    replaceChar text '\n' ("\n" ++ strRepeat "    " (trace_depth - basis_depth) ++ "|   ")
  else text

/-- The tail of `_trace` after the walk: the zero-frame fallback, the
truncation of `last_trace`, the final `trace_depth`/`match_depth`
adjustments, the root-reset decision with the `basis_depth` update, and the
rendering of the indentation prefix and message. -/
def finishTrace (text : String) (s : TraceState) (w : WalkState) : CallResult :=
  if w.trace_depth = 0 then
    ⟨true, 0, 0, 0, false, "", text, text ++ "\n", s⟩
  else
    let last_trace := w.last_trace.take w.trace_depth
    let trace_depth := w.trace_depth - 1
    let match_depth := min w.match_depth trace_depth
    if match_depth = 0 ∨ match_depth < s.basis_depth then
      let basis_depth := if w.crate_depth = 0 then trace_depth else w.crate_depth
      let depth_text :=
        if trace_depth > basis_depth then
          "@---" ++ strRepeat ">---" (trace_depth - basis_depth - 1) ++ "|   "
        else "@   "
      let rendered := depth_text ++ renderBody text trace_depth basis_depth
      ⟨false, trace_depth, match_depth, w.crate_depth, true, depth_text, rendered,
        rendered ++ "\n", ⟨last_trace, basis_depth⟩⟩
    else
      let depth_text :=
        strRepeat "    " (match_depth - s.basis_depth) ++
          strRepeat ">---" (trace_depth - match_depth) ++ "|   "
      let rendered := depth_text ++ renderBody text trace_depth s.basis_depth
      ⟨false, trace_depth, match_depth, w.crate_depth, false, depth_text, rendered,
        rendered ++ "\n", ⟨last_trace, s.basis_depth⟩⟩

/-- The embedding of `_trace(text, module_path)`.  The external capture is
given by `captured` (status test) and `capture` (the Debug-string chunks in
string order); `s` is the state found in `LAST_TRACE_INFO`. -/
def _trace (text module_path : String) (captured : Bool) (capture : List String)
    (s : TraceState) : CallResult :=
  if captured = true then
    finishTrace text s
      (walkFrames trace_path (crate_path module_path) s.last_trace.length
        capture.reverse ⟨s.last_trace, 0, 0, 0⟩)
  else
    ⟨true, 0, 0, 0, false, "", text, text ++ "\n", s⟩

/-- The filtered `FrameSequence` of a call: the walked chunks, i.e. the
`rsplit`-order chunks up to (excluding) the entry point's own frame. -/
def walkedFrames (capture : List String) : List String :=
  capture.reverse.takeWhile (fun f => !strContains f trace_path)

/-- Length of the common leading prefix of two frame sequences, compared
from index 0 by string equality, stopping at the first mismatch. -/
def commonPrefixLen : List String → List String → Nat
  | a :: as, b :: bs => if a = b then commonPrefixLen as bs + 1 else 0
  | _, _ => 0

/-- The value the `'find_depth` loop leaves in `crate_depth`: scanning the
walked frames in walk order with a running index starting at `i`, the first
index at which a frame matches the crate pattern while the index is nonzero;
`0` if there is none. -/
def firstCrateIdx (cratePath : String) : Nat → List String → Nat
  | _, [] => 0
  | i, f :: fs =>
    if strContains f cratePath = true ∧ i ≠ 0 then i
    else firstCrateIdx cratePath (i + 1) fs

/-- Claim-side reading of `crate_depth` (spec §4.1): the position of the
first matching frame scanning from the logging entry point outward toward
the caller, i.e. leaf-to-root among the retained frames; `0` if none.  This
is the index of the last matching frame in root-to-leaf order. -/
def lastMatchIdx (cratePath : String) : List String → Option Nat
  | [] => none
  | f :: fs =>
    match lastMatchIdx cratePath fs with
    | some j => some (j + 1)
    | none => if strContains f cratePath = true then some 0 else none

/-- `crate_depth` as claim C7 describes it. -/
def crateDepthClaim (cratePath : String) (walked : List String) : Nat :=
  (lastMatchIdx cratePath walked).getD 0

/-- Helper of `crateDepthAmended`: first match at running index `i` or
beyond, `0` if none. -/
def firstMatchFrom (cratePath : String) (i : Nat) : List String → Nat
  | [] => 0
  | f :: fs =>
    if strContains f cratePath = true then i else firstMatchFrom cratePath (i + 1) fs

/-- `crate_depth` as the code actually computes it (amended claim C7): the
position of the first matching frame scanning root-to-leaf, a match at
position 0 being ignored; `0` if no frame at a nonzero position matches. -/
def crateDepthAmended (cratePath : String) : List String → Nat
  | [] => 0
  | _ :: rest => firstMatchFrom cratePath 1 rest

/-- The cross-call invariant of the shared state: the basis depth points
strictly inside the stored trace whenever one is stored, and is `0` when
none is. -/
def Invariant (s : TraceState) : Prop :=
  (s.last_trace ≠ [] → s.basis_depth < s.last_trace.length) ∧
  (s.last_trace = [] → s.basis_depth = 0)

instance (s : TraceState) : Decidable (Invariant s) := by
  unfold Invariant; infer_instance

/-! ### Small list lemmas used by the walk characterisation -/

lemma cpl_nil (L : List String) : commonPrefixLen [] L = 0 := by
  cases L <;> rfl

lemma getD_oob (l : List String) : ∀ n, l.length ≤ n → l.getD n "" = "" := by
  induction l with
  | nil => intro n _; cases n <;> rfl
  | cons a t ih =>
    intro n h
    cases n with
    | zero => simp at h
    | succ m => simpa [List.getD] using ih m (by simpa using h)

lemma getD_append_len (a b : List String) : (a ++ b).getD a.length "" = b.getD 0 "" := by
  induction a with
  | nil => rfl
  | cons x t ih => simpa [List.getD] using ih

lemma set_append_len (a b : List String) (x : String) :
    (a ++ b).set a.length x = a ++ b.set 0 x := by
  induction a with
  | nil => rfl
  | cons h t ih => simp [List.set, ih]

lemma drop_getD_cons (L : List String) : ∀ n, n < L.length →
    L.drop n = L.getD n "" :: L.drop (n + 1) := by
  induction L with
  | nil => intro n h; simp at h
  | cons a t ih =>
    intro n h
    cases n with
    | zero => simp [List.getD]
    | succ m => simpa [List.getD] using ih m (by simpa using h)

lemma take_append_self (a b : List String) : (a ++ b).take a.length = a := by
  induction a with
  | nil => rfl
  | cons h t ih => simp [ih]

lemma takeWhile_append_sat (p : String → Bool) (l₁ : List String) (x : String)
    (l₂ : List String) (h₁ : ∀ a ∈ l₁, p a = true) (hx : p x = false) :
    (l₁ ++ x :: l₂).takeWhile p = l₁ := by
  induction l₁ with
  | nil => simp [List.takeWhile, hx]
  | cons a t ih =>
    have ha : p a = true := h₁ a (by simp)
    simp only [List.cons_append, List.takeWhile_cons, ha, if_true]
    rw [ih (fun b hb => h₁ b (by simp [hb]))]

lemma cpl_le_length (a : List String) : ∀ b, commonPrefixLen a b ≤ a.length := by
  induction a with
  | nil => intro b; simp [cpl_nil]
  | cons x t ih =>
    intro b
    cases b with
    | nil => simp [commonPrefixLen]
    | cons y u =>
      by_cases hxy : x = y <;> simp [commonPrefixLen, hxy]
      exact ih u

lemma cpl_self (a : List String) : commonPrefixLen a a = a.length := by
  induction a with
  | nil => rfl
  | cons x t ih => simp [commonPrefixLen, ih]

lemma cpl_snoc (done : List String) : ∀ (L : List String) (f : String),
    commonPrefixLen (done ++ [f]) L =
      if commonPrefixLen done L = done.length ∧ done.length < L.length ∧
          f = L.getD done.length "" then
        commonPrefixLen done L + 1
      else commonPrefixLen done L := by
  induction done with
  | nil =>
    intro L f
    cases L with
    | nil => simp [commonPrefixLen, cpl_nil]
    | cons b bs =>
      by_cases hf : f = b <;>
        simp [commonPrefixLen, cpl_nil, List.getD, hf]
  | cons a as ih =>
    intro L f
    cases L with
    | nil => simp [commonPrefixLen]
    | cons b bs =>
      by_cases hab : a = b
      · have hiff : (commonPrefixLen (a :: as) (b :: bs) = (a :: as).length ∧
            (a :: as).length < (b :: bs).length ∧
            f = (b :: bs).getD (a :: as).length "") ↔
            (commonPrefixLen as bs = as.length ∧ as.length < bs.length ∧
              f = bs.getD as.length "") := by
          simp [commonPrefixLen, hab, List.getD, Nat.succ_lt_succ_iff]
        rw [if_congr hiff rfl rfl]
        have hl : commonPrefixLen ((a :: as) ++ [f]) (b :: bs)
            = commonPrefixLen (as ++ [f]) bs + 1 := by
          simp [commonPrefixLen, hab]
        have hr : commonPrefixLen (a :: as) (b :: bs) = commonPrefixLen as bs + 1 := by
          simp [commonPrefixLen, hab]
        rw [hl, ih bs f, hr]
        by_cases hc : commonPrefixLen as bs = as.length ∧ as.length < bs.length ∧
            f = bs.getD as.length ""
        · rw [if_pos hc, if_pos hc]
        · rw [if_neg hc, if_neg hc]
      · have hne : ¬ (commonPrefixLen (a :: as) (b :: bs) = (a :: as).length ∧
            (a :: as).length < (b :: bs).length ∧
            f = (b :: bs).getD (a :: as).length "") := by
          intro h
          have h0 : commonPrefixLen (a :: as) (b :: bs) = 0 := by
            simp [commonPrefixLen, hab]
          rw [h0] at h
          simp at h
        rw [if_neg hne]
        have hl : commonPrefixLen ((a :: as) ++ [f]) (b :: bs) = 0 := by
          simp [commonPrefixLen, hab]
        have hr : commonPrefixLen (a :: as) (b :: bs) = 0 := by
          simp [commonPrefixLen, hab]
        rw [hl, hr]

lemma fci_snoc (cp : String) : ∀ (xs : List String) (i : Nat) (f : String),
    firstCrateIdx cp i (xs ++ [f]) =
      if firstCrateIdx cp i xs = 0 ∧ strContains f cp = true ∧ i + xs.length ≠ 0 then
        i + xs.length
      else firstCrateIdx cp i xs := by
  intro xs
  induction xs with
  | nil =>
    intro i f
    by_cases h1 : strContains f cp = true <;> by_cases h2 : i = 0 <;>
      simp [firstCrateIdx, h1, h2]
  | cons g gs ih =>
    intro i f
    by_cases hg : strContains g cp = true ∧ i ≠ 0
    · have hv : firstCrateIdx cp i (g :: gs) = i := by
        simp [firstCrateIdx, hg]
      have hv2 : firstCrateIdx cp i ((g :: gs) ++ [f]) = i := by
        simp [firstCrateIdx, hg]
      rw [hv2, hv, if_neg]
      intro h
      exact hg.2 h.1
    · have hv : firstCrateIdx cp i (g :: gs) = firstCrateIdx cp (i + 1) gs := by
        simp [firstCrateIdx, hg]
      have hv2 : firstCrateIdx cp i ((g :: gs) ++ [f])
          = firstCrateIdx cp (i + 1) (gs ++ [f]) := by
        simp [firstCrateIdx, hg]
      rw [hv2, hv, ih (i + 1) f]
      have e1 : (i + 1) + gs.length = i + (g :: gs).length := by
        simp; omega
      have e2 : (i + 1) + gs.length ≠ 0 := by omega
      have e3 : i + (g :: gs).length ≠ 0 := by simp
      simp only [e2, e3, and_true, e1]

lemma fci_bound (cp : String) : ∀ (l : List String) (i : Nat),
    firstCrateIdx cp i l = 0 ∨ firstCrateIdx cp i l < i + l.length := by
  intro l
  induction l with
  | nil => intro i; left; rfl
  | cons f fs ih =>
    intro i
    by_cases hf : strContains f cp = true ∧ i ≠ 0
    · right
      have : firstCrateIdx cp i (f :: fs) = i := by simp [firstCrateIdx, hf]
      rw [this]
      simp
    · have : firstCrateIdx cp i (f :: fs) = firstCrateIdx cp (i + 1) fs := by
        simp [firstCrateIdx, hf]
      rw [this]
      rcases ih (i + 1) with h | h
      · left; exact h
      · right
        simp only [List.length_cons]
        omega

lemma firstMatchFrom_pos (cp : String) : ∀ (l : List String) (i : Nat), 1 ≤ i →
    firstMatchFrom cp i l = firstCrateIdx cp i l := by
  intro l
  induction l with
  | nil => intro i _; rfl
  | cons f fs ih =>
    intro i hi
    by_cases hf : strContains f cp = true
    · have h2 : i ≠ 0 := by omega
      simp [firstMatchFrom, firstCrateIdx, hf, h2]
    · simp only [firstMatchFrom, firstCrateIdx, hf]
      rw [if_neg (by simp [hf]), if_neg (by simp [hf])]
      exact ih (i + 1) (by omega)

lemma fci_eq_amended (cp : String) (l : List String) :
    firstCrateIdx cp 0 l = crateDepthAmended cp l := by
  cases l with
  | nil => rfl
  | cons f fs =>
    have h0 : firstCrateIdx cp 0 (f :: fs) = firstCrateIdx cp 1 fs := by
      simp [firstCrateIdx]
    rw [h0]
    show firstCrateIdx cp 1 fs = firstMatchFrom cp 1 fs
    exact (firstMatchFrom_pos cp fs 1 (by omega)).symm

/-! ### Characterisation of the `'find_depth` walk -/

lemma getD_over_drop (done L : List String) :
    (done ++ L.drop done.length).getD done.length "" = L.getD done.length "" := by
  by_cases hlen : done.length < L.length
  · rw [getD_append_len, drop_getD_cons L done.length hlen]
    rfl
  · push_neg at hlen
    have h1 : L.drop done.length = [] := List.drop_eq_nil_of_le hlen
    rw [h1, getD_oob _ done.length (by simp), getD_oob L done.length hlen]

lemma walkFrames_go (tp cp : String) (L : List String) :
    ∀ (rest done : List String),
      walkFrames tp cp L.length rest
        ⟨done ++ L.drop done.length, done.length, commonPrefixLen done L,
          firstCrateIdx cp 0 done⟩ =
      ⟨(done ++ rest.takeWhile (fun f => !strContains f tp)) ++
          L.drop (done ++ rest.takeWhile (fun f => !strContains f tp)).length,
        (done ++ rest.takeWhile (fun f => !strContains f tp)).length,
        commonPrefixLen (done ++ rest.takeWhile (fun f => !strContains f tp)) L,
        firstCrateIdx cp 0 (done ++ rest.takeWhile (fun f => !strContains f tp))⟩ := by
  intro rest
  induction rest with
  | nil => intro done; simp [walkFrames]
  | cons f fs ih =>
    intro done
    by_cases hc : strContains f tp = true
    · simp [walkFrames, hc, List.takeWhile_cons]
    · have hcb : (!strContains f tp) = true := by simp [hc]
      have htw : (f :: fs).takeWhile (fun g => !strContains g tp)
          = f :: fs.takeWhile (fun g => !strContains g tp) := by
        simp [List.takeWhile_cons, hcb]
      have hlast : (if done.length < L.length
            then (done ++ L.drop done.length).set done.length f
            else (done ++ L.drop done.length) ++ [f])
          = (done ++ [f]) ++ L.drop ((done ++ [f]).length) := by
        by_cases hlen : done.length < L.length
        · rw [if_pos hlen, set_append_len, drop_getD_cons L done.length hlen]
          simp [List.set]
        · push_neg at hlen
          rw [if_neg (by omega)]
          have h1 : L.drop done.length = [] := List.drop_eq_nil_of_le hlen
          have h2 : L.drop ((done ++ [f]).length) = [] :=
            List.drop_eq_nil_of_le
              (by simp only [List.length_append, List.length_cons, List.length_nil]; omega)
          rw [h1, h2]
          simp
      have hmatch : (if done.length < L.length ∧
              commonPrefixLen done L = done.length ∧
              f = (done ++ L.drop done.length).getD done.length "" then
            commonPrefixLen done L + 1
          else commonPrefixLen done L)
          = commonPrefixLen (done ++ [f]) L := by
        rw [getD_over_drop, cpl_snoc]
        exact if_congr (by tauto) rfl rfl
      have hcrate : (if firstCrateIdx cp 0 done = 0 ∧ strContains f cp = true
              then done.length
            else firstCrateIdx cp 0 done)
          = firstCrateIdx cp 0 (done ++ [f]) := by
        rw [fci_snoc]
        by_cases hd : done.length = 0
        · have hdone : done = [] := List.length_eq_zero.mp hd
          subst hdone
          simp [firstCrateIdx]
        · simp [hd]
      have hstep : walkFrames tp cp L.length (f :: fs)
            ⟨done ++ L.drop done.length, done.length, commonPrefixLen done L,
              firstCrateIdx cp 0 done⟩
          = walkFrames tp cp L.length fs
            ⟨(done ++ [f]) ++ L.drop ((done ++ [f]).length), (done ++ [f]).length,
              commonPrefixLen (done ++ [f]) L, firstCrateIdx cp 0 (done ++ [f])⟩ := by
        conv_lhs => rw [walkFrames]
        rw [if_neg (by simp [hc])]
        dsimp only
        rw [hlast, hmatch, hcrate]
        have hlen1 : (done ++ [f]).length = done.length + 1 := by simp
        rw [hlen1]
      rw [hstep, ih (done ++ [f]), htw]
      have hW : (done ++ [f]) ++ fs.takeWhile (fun g => !strContains g tp)
          = done ++ (f :: fs.takeWhile (fun g => !strContains g tp)) := by
        simp
      rw [hW]

/-- Running `_trace` with a successful status: the walk leaves exactly the
filtered frames (with the stale tail of the stored trace still behind them,
removed by the later truncation), their count, the common-prefix length
against the stored trace, and the recorded crate depth. -/
lemma trace_run (text mp : String) (capture : List String) (s : TraceState) :
    _trace text mp true capture s =
      finishTrace text s
        ⟨walkedFrames capture ++ s.last_trace.drop (walkedFrames capture).length,
          (walkedFrames capture).length,
          commonPrefixLen (walkedFrames capture) s.last_trace,
          firstCrateIdx (crate_path mp) 0 (walkedFrames capture)⟩ := by
  unfold _trace
  rw [if_pos rfl]
  have h := walkFrames_go trace_path (crate_path mp) s.last_trace capture.reverse []
  simp only [List.nil_append, List.drop_zero, cpl_nil, firstCrateIdx,
    List.length_nil] at h
  rw [h]
  rfl

/-! ### Projections of `finishTrace` on the successful path -/

section FinishLemmas

variable (text : String) (s : TraceState) (w : WalkState)

lemma fs_fallback (h0 : ¬ w.trace_depth = 0) : (finishTrace text s w).fallback = false := by
  unfold finishTrace
  rw [if_neg h0]
  by_cases hr : min w.match_depth (w.trace_depth - 1) = 0 ∨
      min w.match_depth (w.trace_depth - 1) < s.basis_depth
  · rw [if_pos hr]
  · rw [if_neg hr]

lemma fs_trace (h0 : ¬ w.trace_depth = 0) :
    (finishTrace text s w).trace_depth = w.trace_depth - 1 := by
  unfold finishTrace
  rw [if_neg h0]
  by_cases hr : min w.match_depth (w.trace_depth - 1) = 0 ∨
      min w.match_depth (w.trace_depth - 1) < s.basis_depth
  · rw [if_pos hr]
  · rw [if_neg hr]

lemma fs_match (h0 : ¬ w.trace_depth = 0) :
    (finishTrace text s w).match_depth = min w.match_depth (w.trace_depth - 1) := by
  unfold finishTrace
  rw [if_neg h0]
  by_cases hr : min w.match_depth (w.trace_depth - 1) = 0 ∨
      min w.match_depth (w.trace_depth - 1) < s.basis_depth
  · rw [if_pos hr]
  · rw [if_neg hr]

lemma fs_crate (h0 : ¬ w.trace_depth = 0) :
    (finishTrace text s w).crate_depth = w.crate_depth := by
  unfold finishTrace
  rw [if_neg h0]
  by_cases hr : min w.match_depth (w.trace_depth - 1) = 0 ∨
      min w.match_depth (w.trace_depth - 1) < s.basis_depth
  · rw [if_pos hr]
  · rw [if_neg hr]

lemma fs_last (h0 : ¬ w.trace_depth = 0) :
    (finishTrace text s w).state.last_trace = w.last_trace.take w.trace_depth := by
  unfold finishTrace
  rw [if_neg h0]
  by_cases hr : min w.match_depth (w.trace_depth - 1) = 0 ∨
      min w.match_depth (w.trace_depth - 1) < s.basis_depth
  · rw [if_pos hr]
  · rw [if_neg hr]

lemma fs_reset_true (h0 : ¬ w.trace_depth = 0)
    (hr : min w.match_depth (w.trace_depth - 1) = 0 ∨
      min w.match_depth (w.trace_depth - 1) < s.basis_depth) :
    (finishTrace text s w).is_reset = true := by
  unfold finishTrace
  rw [if_neg h0, if_pos hr]

lemma fs_reset_false (h0 : ¬ w.trace_depth = 0)
    (hr : ¬ (min w.match_depth (w.trace_depth - 1) = 0 ∨
      min w.match_depth (w.trace_depth - 1) < s.basis_depth)) :
    (finishTrace text s w).is_reset = false := by
  unfold finishTrace
  rw [if_neg h0, if_neg hr]

lemma fs_basis_reset (h0 : ¬ w.trace_depth = 0)
    (hr : min w.match_depth (w.trace_depth - 1) = 0 ∨
      min w.match_depth (w.trace_depth - 1) < s.basis_depth) :
    (finishTrace text s w).state.basis_depth =
      if w.crate_depth = 0 then w.trace_depth - 1 else w.crate_depth := by
  unfold finishTrace
  rw [if_neg h0, if_pos hr]

lemma fs_basis_cont (h0 : ¬ w.trace_depth = 0)
    (hr : ¬ (min w.match_depth (w.trace_depth - 1) = 0 ∨
      min w.match_depth (w.trace_depth - 1) < s.basis_depth)) :
    (finishTrace text s w).state.basis_depth = s.basis_depth := by
  unfold finishTrace
  rw [if_neg h0, if_neg hr]

lemma fs_dt_reset (h0 : ¬ w.trace_depth = 0)
    (hr : min w.match_depth (w.trace_depth - 1) = 0 ∨
      min w.match_depth (w.trace_depth - 1) < s.basis_depth) :
    (finishTrace text s w).depth_text =
      if w.trace_depth - 1 > (if w.crate_depth = 0 then w.trace_depth - 1 else w.crate_depth) then
        "@---" ++ strRepeat ">---"
          (w.trace_depth - 1 - (if w.crate_depth = 0 then w.trace_depth - 1 else w.crate_depth) - 1)
          ++ "|   "
      else "@   " := by
  unfold finishTrace
  rw [if_neg h0, if_pos hr]

lemma fs_dt_cont (h0 : ¬ w.trace_depth = 0)
    (hr : ¬ (min w.match_depth (w.trace_depth - 1) = 0 ∨
      min w.match_depth (w.trace_depth - 1) < s.basis_depth)) :
    (finishTrace text s w).depth_text =
      strRepeat "    " (min w.match_depth (w.trace_depth - 1) - s.basis_depth) ++
        strRepeat ">---" (w.trace_depth - 1 - min w.match_depth (w.trace_depth - 1)) ++
        "|   " := by
  unfold finishTrace
  rw [if_neg h0, if_neg hr]

lemma fs_rendered (h0 : ¬ w.trace_depth = 0) :
    (finishTrace text s w).rendered =
      (finishTrace text s w).depth_text ++
        renderBody text (w.trace_depth - 1) (finishTrace text s w).state.basis_depth := by
  unfold finishTrace
  rw [if_neg h0]
  by_cases hr : min w.match_depth (w.trace_depth - 1) = 0 ∨
      min w.match_depth (w.trace_depth - 1) < s.basis_depth
  · rw [if_pos hr]
  · rw [if_neg hr]

lemma fs_output (h0 : ¬ w.trace_depth = 0) :
    (finishTrace text s w).output = (finishTrace text s w).rendered ++ "\n" := by
  unfold finishTrace
  rw [if_neg h0]
  by_cases hr : min w.match_depth (w.trace_depth - 1) = 0 ∨
      min w.match_depth (w.trace_depth - 1) < s.basis_depth
  · rw [if_pos hr]
  · rw [if_neg hr]

lemma fs_zero (h0 : w.trace_depth = 0) :
    finishTrace text s w = ⟨true, 0, 0, 0, false, "", text, text ++ "\n", s⟩ := by
  unfold finishTrace
  rw [if_pos h0]

end FinishLemmas

/-! ### String-level lemmas: counts, repeats, line splitting -/

lemma charCount_append (a b : String) (c : Char) :
    charCount (a ++ b) c = charCount a c + charCount b c := by
  simp [charCount, String.data_append, List.count_append]

lemma charCount_strRepeat (s : String) (c : Char) :
    ∀ n, charCount (strRepeat s n) c = n * charCount s c := by
  intro n
  induction n with
  | zero => simp [strRepeat, charCount]
  | succ m ih =>
    show charCount (s ++ strRepeat s m) c = (m + 1) * charCount s c
    rw [charCount_append, ih]
    ring

lemma mem_strRepeat_data (s : String) (c : Char) :
    ∀ n, c ∈ (strRepeat s n).data → c ∈ s.data := by
  intro n
  induction n with
  | zero => intro h; simp [strRepeat] at h
  | succ m ih =>
    intro h
    rw [show strRepeat s (m + 1) = s ++ strRepeat s m from rfl,
      String.data_append] at h
    rcases List.mem_append.mp h with h1 | h2
    · exact h1
    · exact ih h2

lemma soc_ne_nil (c : Char) : ∀ l, splitOnChar c l ≠ [] := by
  intro l
  cases l with
  | nil => simp [splitOnChar]
  | cons ch rest =>
    show splitOnChar c (ch :: rest) ≠ []
    rw [splitOnChar]
    rcases h : splitOnChar c rest with _ | ⟨x, xs⟩
    · simp
    · by_cases hc : ch = c <;> simp [hc]

lemma soc_not_mem (c : Char) : ∀ l, c ∉ l → splitOnChar c l = [l] := by
  intro l
  induction l with
  | nil => intro _; rfl
  | cons ch rest ih =>
    intro h
    have hch : ¬ ch = c := by
      intro he; exact h (by simp [he])
    have hrest : c ∉ rest := by
      intro hm; exact h (by simp [hm])
    rw [splitOnChar, ih hrest]
    simp [hch]

lemma soc_append (c : Char) (A : List Char) (hA : c ∉ A) :
    ∀ (X : List Char) (h : List Char) (t : List (List Char)),
      splitOnChar c X = h :: t → splitOnChar c (A ++ X) = (A ++ h) :: t := by
  induction A with
  | nil => intro X h t hX; simpa using hX
  | cons a A' ih =>
    intro X h t hX
    have ha : ¬ a = c := by
      intro he; exact hA (by simp [he])
    have hA' : c ∉ A' := by
      intro hm; exact hA (by simp [hm])
    have hrec := ih hA' X h t hX
    rw [List.cons_append, splitOnChar, hrec]
    simp [ha]

lemma soc_length (c : Char) : ∀ l, (splitOnChar c l).length = l.count c + 1 := by
  intro l
  induction l with
  | nil => rfl
  | cons ch rest ih =>
    rcases h : splitOnChar c rest with _ | ⟨x, xs⟩
    · exact absurd h (soc_ne_nil c rest)
    · rw [splitOnChar, h]
      by_cases hc : ch = c
      · simp only [hc, if_pos rfl, List.length_cons, List.count_cons]
        rw [h] at ih
        simp only [List.length_cons] at ih
        simp [ih]
      · simp only [if_neg hc, List.length_cons, List.count_cons]
        rw [h] at ih
        simp only [List.length_cons] at ih
        have : (ch == c) = false := by simp [hc]
        simp [this, ih]

lemma soc_replace (c : Char) (pad : List Char) (hpad : c ∉ pad) :
    ∀ (l : List Char) (h : List Char) (t : List (List Char)),
      splitOnChar c l = h :: t →
      splitOnChar c ((l.map (fun ch => if ch = c then c :: pad else [ch])).flatten) =
        h :: t.map (fun x => pad ++ x) := by
  intro l
  induction l with
  | nil =>
    intro h t hX
    have h1 : h = ([] : List Char) ∧ t = [] := by
      have : ([[]] : List (List Char)) = h :: t := hX
      cases this
      exact ⟨rfl, rfl⟩
    rcases h1 with ⟨rfl, rfl⟩
    rfl
  | cons ch l' ih =>
    intro h t hX
    rcases hl' : splitOnChar c l' with _ | ⟨h', t'⟩
    · exact absurd hl' (soc_ne_nil c l')
    · have hflat : ((ch :: l').map (fun ch => if ch = c then c :: pad else [ch])).flatten
          = (if ch = c then c :: pad else [ch]) ++
            (l'.map (fun ch => if ch = c then c :: pad else [ch])).flatten := by
        simp
      have hrepl := ih h' t' hl'
      by_cases hc : ch = c
      · have hX2 : ([] : List Char) :: h' :: t' = h :: t := by
          rw [splitOnChar, hl'] at hX
          simpa [hc] using hX
        cases hX2
        rw [hflat, if_pos hc]
        have hsub : splitOnChar c (pad ++
            (l'.map (fun ch => if ch = c then c :: pad else [ch])).flatten)
            = (pad ++ h') :: t'.map (fun x => pad ++ x) :=
          soc_append c pad hpad _ _ _ hrepl
        rw [List.cons_append, splitOnChar, hsub]
        simp
      · have hX2 : (ch :: h') :: t' = h :: t := by
          rw [splitOnChar, hl'] at hX
          simpa [hc] using hX
        cases hX2
        rw [hflat, if_neg hc, List.singleton_append, splitOnChar, hrepl]
        simp [hc]

/-! ### Observables of a `_trace` call in closed form -/

section TraceLemmas

variable (text mp : String) (capture : List String) (s : TraceState)

lemma trace_not_captured :
    _trace text mp false capture s = ⟨true, 0, 0, 0, false, "", text, text ++ "\n", s⟩ := by
  unfold _trace
  rw [if_neg (by simp)]

lemma trace_empty_walk (h : walkedFrames capture = []) :
    _trace text mp true capture s = ⟨true, 0, 0, 0, false, "", text, text ++ "\n", s⟩ := by
  rw [trace_run]
  apply fs_zero
  simp [h]

lemma trace_fallback_iff :
    (_trace text mp true capture s).fallback = false ↔ walkedFrames capture ≠ [] := by
  constructor
  · intro hf hw
    rw [trace_empty_walk text mp capture s hw] at hf
    simp at hf
  · intro hw
    rw [trace_run]
    apply fs_fallback
    simpa [List.length_eq_zero] using hw

lemma walked_pos (h : walkedFrames capture ≠ []) :
    ¬ ((walkedFrames capture).length = 0) := by
  simpa [List.length_eq_zero] using h

lemma trace_trace_depth (h : walkedFrames capture ≠ []) :
    (_trace text mp true capture s).trace_depth = (walkedFrames capture).length - 1 := by
  rw [trace_run]
  simpa using fs_trace text s _ (by simpa using walked_pos capture h)

lemma trace_match_depth (h : walkedFrames capture ≠ []) :
    (_trace text mp true capture s).match_depth =
      min (commonPrefixLen (walkedFrames capture) s.last_trace)
        ((walkedFrames capture).length - 1) := by
  rw [trace_run]
  simpa using fs_match text s _ (by simpa using walked_pos capture h)

lemma trace_crate_depth (h : walkedFrames capture ≠ []) :
    (_trace text mp true capture s).crate_depth =
      firstCrateIdx (crate_path mp) 0 (walkedFrames capture) := by
  rw [trace_run]
  simpa using fs_crate text s _ (by simpa using walked_pos capture h)

lemma trace_last_trace (h : walkedFrames capture ≠ []) :
    (_trace text mp true capture s).state.last_trace = walkedFrames capture := by
  rw [trace_run]
  have := fs_last text s
    ⟨walkedFrames capture ++ s.last_trace.drop (walkedFrames capture).length,
      (walkedFrames capture).length,
      commonPrefixLen (walkedFrames capture) s.last_trace,
      firstCrateIdx (crate_path mp) 0 (walkedFrames capture)⟩
    (by simpa using walked_pos capture h)
  simpa [take_append_self] using this

lemma trace_reset_iff (h : walkedFrames capture ≠ []) :
    ((_trace text mp true capture s).is_reset = true ↔
      (min (commonPrefixLen (walkedFrames capture) s.last_trace)
          ((walkedFrames capture).length - 1) = 0 ∨
        min (commonPrefixLen (walkedFrames capture) s.last_trace)
          ((walkedFrames capture).length - 1) < s.basis_depth)) := by
  rw [trace_run]
  by_cases hr : min (commonPrefixLen (walkedFrames capture) s.last_trace)
      ((walkedFrames capture).length - 1) = 0 ∨
      min (commonPrefixLen (walkedFrames capture) s.last_trace)
        ((walkedFrames capture).length - 1) < s.basis_depth
  · have := fs_reset_true text s
      ⟨walkedFrames capture ++ s.last_trace.drop (walkedFrames capture).length,
        (walkedFrames capture).length,
        commonPrefixLen (walkedFrames capture) s.last_trace,
        firstCrateIdx (crate_path mp) 0 (walkedFrames capture)⟩
      (by simpa using walked_pos capture h) (by simpa using hr)
    rw [this]
    exact iff_of_true rfl hr
  · have := fs_reset_false text s
      ⟨walkedFrames capture ++ s.last_trace.drop (walkedFrames capture).length,
        (walkedFrames capture).length,
        commonPrefixLen (walkedFrames capture) s.last_trace,
        firstCrateIdx (crate_path mp) 0 (walkedFrames capture)⟩
      (by simpa using walked_pos capture h) (by simpa using hr)
    rw [this]
    exact iff_of_false (by simp) hr

lemma trace_basis_reset (h : walkedFrames capture ≠ [])
    (hr : min (commonPrefixLen (walkedFrames capture) s.last_trace)
        ((walkedFrames capture).length - 1) = 0 ∨
      min (commonPrefixLen (walkedFrames capture) s.last_trace)
        ((walkedFrames capture).length - 1) < s.basis_depth) :
    (_trace text mp true capture s).state.basis_depth =
      if firstCrateIdx (crate_path mp) 0 (walkedFrames capture) = 0 then
        (walkedFrames capture).length - 1
      else firstCrateIdx (crate_path mp) 0 (walkedFrames capture) := by
  rw [trace_run]
  simpa using fs_basis_reset text s _
    (by simpa using walked_pos capture h) (by simpa using hr)

lemma trace_basis_cont (h : walkedFrames capture ≠ [])
    (hr : ¬ (min (commonPrefixLen (walkedFrames capture) s.last_trace)
        ((walkedFrames capture).length - 1) = 0 ∨
      min (commonPrefixLen (walkedFrames capture) s.last_trace)
        ((walkedFrames capture).length - 1) < s.basis_depth)) :
    (_trace text mp true capture s).state.basis_depth = s.basis_depth := by
  rw [trace_run]
  simpa using fs_basis_cont text s _
    (by simpa using walked_pos capture h) (by simpa using hr)

lemma trace_dt_reset (h : walkedFrames capture ≠ [])
    (hr : min (commonPrefixLen (walkedFrames capture) s.last_trace)
        ((walkedFrames capture).length - 1) = 0 ∨
      min (commonPrefixLen (walkedFrames capture) s.last_trace)
        ((walkedFrames capture).length - 1) < s.basis_depth) :
    (_trace text mp true capture s).depth_text =
      if (walkedFrames capture).length - 1 >
          (if firstCrateIdx (crate_path mp) 0 (walkedFrames capture) = 0 then
            (walkedFrames capture).length - 1
          else firstCrateIdx (crate_path mp) 0 (walkedFrames capture)) then
        "@---" ++ strRepeat ">---"
          ((walkedFrames capture).length - 1 -
            (if firstCrateIdx (crate_path mp) 0 (walkedFrames capture) = 0 then
              (walkedFrames capture).length - 1
            else firstCrateIdx (crate_path mp) 0 (walkedFrames capture)) - 1) ++ "|   "
      else "@   " := by
  rw [trace_run]
  simpa using fs_dt_reset text s _
    (by simpa using walked_pos capture h) (by simpa using hr)

lemma trace_dt_cont (h : walkedFrames capture ≠ [])
    (hr : ¬ (min (commonPrefixLen (walkedFrames capture) s.last_trace)
        ((walkedFrames capture).length - 1) = 0 ∨
      min (commonPrefixLen (walkedFrames capture) s.last_trace)
        ((walkedFrames capture).length - 1) < s.basis_depth)) :
    (_trace text mp true capture s).depth_text =
      strRepeat "    " (min (commonPrefixLen (walkedFrames capture) s.last_trace)
          ((walkedFrames capture).length - 1) - s.basis_depth) ++
        strRepeat ">---" ((walkedFrames capture).length - 1 -
          min (commonPrefixLen (walkedFrames capture) s.last_trace)
            ((walkedFrames capture).length - 1)) ++ "|   " := by
  rw [trace_run]
  simpa using fs_dt_cont text s _
    (by simpa using walked_pos capture h) (by simpa using hr)

lemma trace_rendered (h : walkedFrames capture ≠ []) :
    (_trace text mp true capture s).rendered =
      (_trace text mp true capture s).depth_text ++
        renderBody text ((walkedFrames capture).length - 1)
          (_trace text mp true capture s).state.basis_depth := by
  rw [trace_run]
  simpa using fs_rendered text s _ (by simpa using walked_pos capture h)

lemma trace_output (h : walkedFrames capture ≠ []) :
    (_trace text mp true capture s).output = (_trace text mp true capture s).rendered ++ "\n" := by
  rw [trace_run]
  simpa using fs_output text s _ (by simpa using walked_pos capture h)

lemma trace_basis_le (h : walkedFrames capture ≠ []) :
    (_trace text mp true capture s).state.basis_depth ≤ (walkedFrames capture).length - 1 := by
  by_cases hr : min (commonPrefixLen (walkedFrames capture) s.last_trace)
      ((walkedFrames capture).length - 1) = 0 ∨
      min (commonPrefixLen (walkedFrames capture) s.last_trace)
        ((walkedFrames capture).length - 1) < s.basis_depth
  · rw [trace_basis_reset text mp capture s h hr]
    rcases fci_bound (crate_path mp) (walkedFrames capture) 0 with hz | hlt
    · simp [hz]
    · by_cases hzz : firstCrateIdx (crate_path mp) 0 (walkedFrames capture) = 0
      · simp [hzz]
      · rw [if_neg hzz]
        have hlen := walked_pos capture h
        omega
  · rw [trace_basis_cont text mp capture s h hr]
    push_neg at hr
    have := hr.2
    omega

end TraceLemmas

/-! ### Marker counts and newline-freeness of the rendered prefixes -/

lemma strContainsChar_true_iff (s : String) (c : Char) :
    strContainsChar s c = true ↔ c ∈ s.data := by
  simp [strContainsChar]

lemma strContainsChar_false_iff (s : String) (c : Char) :
    strContainsChar s c = false ↔ c ∉ s.data := by
  simp [strContainsChar]

lemma count_gt_reset (k : Nat) :
    charCount ("@---" ++ strRepeat ">---" k ++ "|   ") '>' = k := by
  rw [charCount_append, charCount_append, charCount_strRepeat]
  have h1 : charCount "@---" '>' = 0 := by decide
  have h2 : charCount ">---" '>' = 1 := by decide
  have h3 : charCount "|   " '>' = 0 := by decide
  rw [h1, h2, h3]
  omega

lemma count_gt_cont (m k : Nat) :
    charCount (strRepeat "    " m ++ strRepeat ">---" k ++ "|   ") '>' = k := by
  rw [charCount_append, charCount_append, charCount_strRepeat, charCount_strRepeat]
  have h1 : charCount "    " '>' = 0 := by decide
  have h2 : charCount ">---" '>' = 1 := by decide
  have h3 : charCount "|   " '>' = 0 := by decide
  rw [h1, h2, h3]
  omega

lemma nl_free_append (a b : String) (ha : ('\n' : Char) ∉ a.data)
    (hb : ('\n' : Char) ∉ b.data) : ('\n' : Char) ∉ (a ++ b).data := by
  rw [String.data_append]
  intro hm
  rcases List.mem_append.mp hm with h1 | h2
  · exact ha h1
  · exact hb h2

lemma nl_free_rep (s : String) (hs : ('\n' : Char) ∉ s.data) (n : Nat) :
    ('\n' : Char) ∉ (strRepeat s n).data :=
  fun hm => hs (mem_strRepeat_data s _ n hm)

lemma trace_dt_nl_free (text mp : String) (capture : List String) (s : TraceState)
    (h : walkedFrames capture ≠ []) :
    ('\n' : Char) ∉ ((_trace text mp true capture s).depth_text).data := by
  by_cases hr : min (commonPrefixLen (walkedFrames capture) s.last_trace)
      ((walkedFrames capture).length - 1) = 0 ∨
      min (commonPrefixLen (walkedFrames capture) s.last_trace)
        ((walkedFrames capture).length - 1) < s.basis_depth
  · rw [trace_dt_reset text mp capture s h hr]
    by_cases hc : (walkedFrames capture).length - 1 >
        (if firstCrateIdx (crate_path mp) 0 (walkedFrames capture) = 0 then
          (walkedFrames capture).length - 1
        else firstCrateIdx (crate_path mp) 0 (walkedFrames capture))
    · rw [if_pos hc]
      exact nl_free_append _ _
        (nl_free_append _ _ (by decide) (nl_free_rep _ (by decide) _)) (by decide)
    · rw [if_neg hc]
      decide
  · rw [trace_dt_cont text mp capture s h hr]
    exact nl_free_append _ _
      (nl_free_append _ _ (nl_free_rep _ (by decide) _) (nl_free_rep _ (by decide) _))
      (by decide)

/-! ### The claims -/

/-- Claim C1: on every successfully captured call with a non-empty filtered
frame sequence, `match_depth` is the length of the common leading prefix of
the current and previously stored sequences (exact string equality from
index 0, stopping at the first mismatch), capped so that it never exceeds
the current sequence's length minus one — the leaf frame is never counted
as matched. -/
theorem claim_C1 (text mp : String) (capture : List String) (s : TraceState)
    (hf : (_trace text mp true capture s).fallback = false) :
    (_trace text mp true capture s).match_depth =
      min (commonPrefixLen (walkedFrames capture) s.last_trace)
        ((walkedFrames capture).length - 1) ∧
    (_trace text mp true capture s).match_depth ≤ (walkedFrames capture).length - 1 ∧
    (_trace text mp true capture s).trace_depth = (walkedFrames capture).length - 1 := by
  have hw : walkedFrames capture ≠ [] := (trace_fallback_iff text mp capture s).mp hf
  refine ⟨trace_match_depth text mp capture s hw, ?_, trace_trace_depth text mp capture s hw⟩
  rw [trace_match_depth text mp capture s hw]
  exact Nat.min_le_right _ _

/-- Witness for C1 at a concrete call. -/
theorem claim_C1_witness :
    (_trace "m" "my" true ["b", "a"] ⟨["a", "x"], 0⟩).match_depth =
      min (commonPrefixLen (walkedFrames ["b", "a"])
          (TraceState.mk ["a", "x"] 0).last_trace)
        ((walkedFrames ["b", "a"]).length - 1) ∧
    (_trace "m" "my" true ["b", "a"] ⟨["a", "x"], 0⟩).match_depth ≤
      (walkedFrames ["b", "a"]).length - 1 ∧
    (_trace "m" "my" true ["b", "a"] ⟨["a", "x"], 0⟩).trace_depth =
      (walkedFrames ["b", "a"]).length - 1 :=
  claim_C1 "m" "my" ["b", "a"] ⟨["a", "x"], 0⟩ (by decide)

/-- Claim C2: on every successful call a root reset occurs exactly when
`match_depth = 0` or `match_depth < basis_depth`; on a reset, `basis_depth`
becomes `crate_depth` if that is nonzero and `trace_depth` otherwise, and
otherwise `basis_depth` is unchanged. -/
theorem claim_C2 (text mp : String) (capture : List String) (s : TraceState)
    (hf : (_trace text mp true capture s).fallback = false) :
    ((_trace text mp true capture s).is_reset = true ↔
      ((_trace text mp true capture s).match_depth = 0 ∨
        (_trace text mp true capture s).match_depth < s.basis_depth)) ∧
    ((_trace text mp true capture s).is_reset = true →
      (_trace text mp true capture s).state.basis_depth =
        if (_trace text mp true capture s).crate_depth = 0 then
          (_trace text mp true capture s).trace_depth
        else (_trace text mp true capture s).crate_depth) ∧
    ((_trace text mp true capture s).is_reset = false →
      (_trace text mp true capture s).state.basis_depth = s.basis_depth) := by
  have hw : walkedFrames capture ≠ [] := (trace_fallback_iff text mp capture s).mp hf
  rw [trace_match_depth text mp capture s hw, trace_crate_depth text mp capture s hw,
    trace_trace_depth text mp capture s hw]
  refine ⟨trace_reset_iff text mp capture s hw, ?_, ?_⟩
  · intro hres
    have hr := (trace_reset_iff text mp capture s hw).mp hres
    exact trace_basis_reset text mp capture s hw hr
  · intro hres
    by_cases hr : min (commonPrefixLen (walkedFrames capture) s.last_trace)
        ((walkedFrames capture).length - 1) = 0 ∨
        min (commonPrefixLen (walkedFrames capture) s.last_trace)
          ((walkedFrames capture).length - 1) < s.basis_depth
    · rw [(trace_reset_iff text mp capture s hw).mpr hr] at hres
      simp at hres
    · exact trace_basis_cont text mp capture s hw hr

/-- Witness for C2 at a concrete call. -/
theorem claim_C2_witness :
    ((_trace "m" "my" true ["b", "a"] ⟨["a", "x"], 0⟩).is_reset = true ↔
      ((_trace "m" "my" true ["b", "a"] ⟨["a", "x"], 0⟩).match_depth = 0 ∨
        (_trace "m" "my" true ["b", "a"] ⟨["a", "x"], 0⟩).match_depth <
          (TraceState.mk ["a", "x"] 0).basis_depth)) ∧
    ((_trace "m" "my" true ["b", "a"] ⟨["a", "x"], 0⟩).is_reset = true →
      (_trace "m" "my" true ["b", "a"] ⟨["a", "x"], 0⟩).state.basis_depth =
        if (_trace "m" "my" true ["b", "a"] ⟨["a", "x"], 0⟩).crate_depth = 0 then
          (_trace "m" "my" true ["b", "a"] ⟨["a", "x"], 0⟩).trace_depth
        else (_trace "m" "my" true ["b", "a"] ⟨["a", "x"], 0⟩).crate_depth) ∧
    ((_trace "m" "my" true ["b", "a"] ⟨["a", "x"], 0⟩).is_reset = false →
      (_trace "m" "my" true ["b", "a"] ⟨["a", "x"], 0⟩).state.basis_depth =
        (TraceState.mk ["a", "x"] 0).basis_depth) :=
  claim_C2 "m" "my" ["b", "a"] ⟨["a", "x"], 0⟩ (by decide)

/-- Claim C4: when capture reports unavailable, or filtering leaves zero
frames, the output is exactly the message followed by a line terminator
with no indentation prefix, and the shared state is left unchanged. -/
theorem claim_C4 (text mp : String) (captured : Bool) (capture : List String)
    (s : TraceState)
    (hfb : captured = false ∨ walkedFrames capture = []) :
    (_trace text mp captured capture s).output = text ++ "\n" ∧
    (_trace text mp captured capture s).depth_text = "" ∧
    (_trace text mp captured capture s).state = s := by
  rcases hfb with hc | hw
  · subst hc
    rw [trace_not_captured]
    exact ⟨rfl, rfl, rfl⟩
  · cases captured with
    | false =>
      rw [trace_not_captured]
      exact ⟨rfl, rfl, rfl⟩
    | true =>
      rw [trace_empty_walk text mp capture s hw]
      exact ⟨rfl, rfl, rfl⟩

/-- Witness for C4 at a concrete call (capture disabled). -/
theorem claim_C4_witness :
    (_trace "hello" "my" false ["x"] ⟨["a"], 0⟩).output = "hello" ++ "\n" ∧
    (_trace "hello" "my" false ["x"] ⟨["a"], 0⟩).depth_text = "" ∧
    (_trace "hello" "my" false ["x"] ⟨["a"], 0⟩).state = ⟨["a"], 0⟩ :=
  claim_C4 "hello" "my" false ["x"] ⟨["a"], 0⟩ (Or.inl rfl)

/-- Claim C5: after every successful call, the stored `last_trace` equals
the current call's filtered frame sequence. -/
theorem claim_C5 (text mp : String) (capture : List String) (s : TraceState)
    (hf : (_trace text mp true capture s).fallback = false) :
    (_trace text mp true capture s).state.last_trace = walkedFrames capture := by
  have hw : walkedFrames capture ≠ [] := (trace_fallback_iff text mp capture s).mp hf
  exact trace_last_trace text mp capture s hw

/-- Witness for C5 at a concrete call where the stored trace is overwritten,
extended and truncated. -/
theorem claim_C5_witness :
    (_trace "m" "my" true ["c", "b", "a"] ⟨["a", "x"], 0⟩).state.last_trace =
      walkedFrames ["c", "b", "a"] :=
  claim_C5 "m" "my" ["c", "b", "a"] ⟨["a", "x"], 0⟩ (by decide)

/-- Claim C3: the count of `>---` markers in a rendered prefix is
`trace_depth - match_depth` on the continuing branch and
`trace_depth - basis_depth - 1` on a root reset with
`trace_depth > basis_depth` (prefix `@---`, the markers, then `|   `; the
prefix is `@   ` alone with zero markers when `trace_depth = basis_depth`);
the counts are never negative because the established inequalities make the
truncated subtractions exact, and the continuing branch renders
`match_depth - basis_depth` four-space blocks, the markers, then `|   `. -/
theorem claim_C3 (text mp : String) (capture : List String) (s : TraceState)
    (hf : (_trace text mp true capture s).fallback = false) :
    ((_trace text mp true capture s).is_reset = false →
      s.basis_depth ≤ (_trace text mp true capture s).match_depth ∧
      (_trace text mp true capture s).match_depth ≤
        (_trace text mp true capture s).trace_depth ∧
      (_trace text mp true capture s).depth_text =
        strRepeat "    " ((_trace text mp true capture s).match_depth - s.basis_depth) ++
          strRepeat ">---" ((_trace text mp true capture s).trace_depth -
            (_trace text mp true capture s).match_depth) ++ "|   " ∧
      charCount (_trace text mp true capture s).depth_text '>' =
        (_trace text mp true capture s).trace_depth -
          (_trace text mp true capture s).match_depth) ∧
    ((_trace text mp true capture s).is_reset = true →
      (_trace text mp true capture s).state.basis_depth ≤
        (_trace text mp true capture s).trace_depth ∧
      ((_trace text mp true capture s).state.basis_depth <
          (_trace text mp true capture s).trace_depth →
        (_trace text mp true capture s).depth_text =
          "@---" ++ strRepeat ">---" ((_trace text mp true capture s).trace_depth -
            (_trace text mp true capture s).state.basis_depth - 1) ++ "|   " ∧
        charCount (_trace text mp true capture s).depth_text '>' =
          (_trace text mp true capture s).trace_depth -
            (_trace text mp true capture s).state.basis_depth - 1) ∧
      ((_trace text mp true capture s).state.basis_depth =
          (_trace text mp true capture s).trace_depth →
        (_trace text mp true capture s).depth_text = "@   " ∧
        charCount (_trace text mp true capture s).depth_text '>' = 0)) := by
  have hw : walkedFrames capture ≠ [] := (trace_fallback_iff text mp capture s).mp hf
  by_cases hr : min (commonPrefixLen (walkedFrames capture) s.last_trace)
      ((walkedFrames capture).length - 1) = 0 ∨
      min (commonPrefixLen (walkedFrames capture) s.last_trace)
        ((walkedFrames capture).length - 1) < s.basis_depth
  · have hres : (_trace text mp true capture s).is_reset = true :=
      (trace_reset_iff text mp capture s hw).mpr hr
    constructor
    · intro habs
      rw [hres] at habs
      simp at habs
    · intro _
      refine ⟨?_, ?_, ?_⟩
      · rw [trace_trace_depth text mp capture s hw]
        exact trace_basis_le text mp capture s hw
      · intro hlt
        rw [trace_trace_depth text mp capture s hw,
          trace_basis_reset text mp capture s hw hr] at hlt ⊢
        rw [trace_dt_reset text mp capture s hw hr, if_pos hlt]
        exact ⟨rfl, count_gt_reset _⟩
      · intro heq
        rw [trace_trace_depth text mp capture s hw,
          trace_basis_reset text mp capture s hw hr] at heq
        rw [trace_dt_reset text mp capture s hw hr, if_neg (by omega)]
        exact ⟨rfl, by decide⟩
  · have hres : (_trace text mp true capture s).is_reset = false := by
      by_cases habs : (_trace text mp true capture s).is_reset = true
      · exact absurd ((trace_reset_iff text mp capture s hw).mp habs) hr
      · simpa using habs
    constructor
    · intro _
      push_neg at hr
      refine ⟨?_, ?_, ?_, ?_⟩
      · rw [trace_match_depth text mp capture s hw]
        omega
      · rw [trace_match_depth text mp capture s hw, trace_trace_depth text mp capture s hw]
        exact Nat.min_le_right _ _
      · rw [trace_match_depth text mp capture s hw, trace_trace_depth text mp capture s hw,
          trace_dt_cont text mp capture s hw (by push_neg; exact hr)]
      · rw [trace_match_depth text mp capture s hw, trace_trace_depth text mp capture s hw,
          trace_dt_cont text mp capture s hw (by push_neg; exact hr)]
        exact count_gt_cont _ _
    · intro habs
      rw [hres] at habs
      simp at habs

/-- Witness for C3 at a concrete continuing call. -/
theorem claim_C3_witness :
    ((_trace "m" "my" true ["c", "b", "a"] ⟨["a", "b"], 0⟩).is_reset = false →
      (TraceState.mk ["a", "b"] 0).basis_depth ≤
        (_trace "m" "my" true ["c", "b", "a"] ⟨["a", "b"], 0⟩).match_depth ∧
      (_trace "m" "my" true ["c", "b", "a"] ⟨["a", "b"], 0⟩).match_depth ≤
        (_trace "m" "my" true ["c", "b", "a"] ⟨["a", "b"], 0⟩).trace_depth ∧
      (_trace "m" "my" true ["c", "b", "a"] ⟨["a", "b"], 0⟩).depth_text =
        strRepeat "    " ((_trace "m" "my" true ["c", "b", "a"] ⟨["a", "b"], 0⟩).match_depth -
          (TraceState.mk ["a", "b"] 0).basis_depth) ++
          strRepeat ">---" ((_trace "m" "my" true ["c", "b", "a"] ⟨["a", "b"], 0⟩).trace_depth -
            (_trace "m" "my" true ["c", "b", "a"] ⟨["a", "b"], 0⟩).match_depth) ++ "|   " ∧
      charCount (_trace "m" "my" true ["c", "b", "a"] ⟨["a", "b"], 0⟩).depth_text '>' =
        (_trace "m" "my" true ["c", "b", "a"] ⟨["a", "b"], 0⟩).trace_depth -
          (_trace "m" "my" true ["c", "b", "a"] ⟨["a", "b"], 0⟩).match_depth) ∧
    ((_trace "m" "my" true ["c", "b", "a"] ⟨["a", "b"], 0⟩).is_reset = true →
      (_trace "m" "my" true ["c", "b", "a"] ⟨["a", "b"], 0⟩).state.basis_depth ≤
        (_trace "m" "my" true ["c", "b", "a"] ⟨["a", "b"], 0⟩).trace_depth ∧
      ((_trace "m" "my" true ["c", "b", "a"] ⟨["a", "b"], 0⟩).state.basis_depth <
          (_trace "m" "my" true ["c", "b", "a"] ⟨["a", "b"], 0⟩).trace_depth →
        (_trace "m" "my" true ["c", "b", "a"] ⟨["a", "b"], 0⟩).depth_text =
          "@---" ++ strRepeat ">---"
            ((_trace "m" "my" true ["c", "b", "a"] ⟨["a", "b"], 0⟩).trace_depth -
              (_trace "m" "my" true ["c", "b", "a"] ⟨["a", "b"], 0⟩).state.basis_depth - 1) ++
            "|   " ∧
        charCount (_trace "m" "my" true ["c", "b", "a"] ⟨["a", "b"], 0⟩).depth_text '>' =
          (_trace "m" "my" true ["c", "b", "a"] ⟨["a", "b"], 0⟩).trace_depth -
            (_trace "m" "my" true ["c", "b", "a"] ⟨["a", "b"], 0⟩).state.basis_depth - 1) ∧
      ((_trace "m" "my" true ["c", "b", "a"] ⟨["a", "b"], 0⟩).state.basis_depth =
          (_trace "m" "my" true ["c", "b", "a"] ⟨["a", "b"], 0⟩).trace_depth →
        (_trace "m" "my" true ["c", "b", "a"] ⟨["a", "b"], 0⟩).depth_text = "@   " ∧
        charCount (_trace "m" "my" true ["c", "b", "a"] ⟨["a", "b"], 0⟩).depth_text '>' = 0)) :=
  claim_C3 "m" "my" ["c", "b", "a"] ⟨["a", "b"], 0⟩ (by decide)

lemma fci_singleton (cp : String) (x : String) : firstCrateIdx cp 0 [x] = 0 := by
  simp [firstCrateIdx]

lemma strRepeat_zero (s : String) : strRepeat s 0 = "" := rfl

/-- Counterexample to claim C6 as stated: calling twice in a row with the
same successfully captured one-frame stack gives `match_depth = trace_depth`
and zero `>---` markers, but the second prefix is `@   ` (a root reset), not
four-space padding followed by `|   ` — it contains no `|` at all. -/
theorem claim_C6_counterexample :
    (_trace "m" "my" true ["a"] ⟨[], 0⟩).fallback = false ∧
    (_trace "m" "my" true ["a"] (_trace "m" "my" true ["a"] ⟨[], 0⟩).state).fallback = false ∧
    (_trace "m" "my" true ["a"] (_trace "m" "my" true ["a"] ⟨[], 0⟩).state).match_depth =
      (_trace "m" "my" true ["a"] (_trace "m" "my" true ["a"] ⟨[], 0⟩).state).trace_depth ∧
    (_trace "m" "my" true ["a"] (_trace "m" "my" true ["a"] ⟨[], 0⟩).state).depth_text =
      "@   " ∧
    ('|' ∈ (_trace "m" "my" true ["a"]
      (_trace "m" "my" true ["a"] ⟨[], 0⟩).state).depth_text.data) = False := by
  decide

/-- Claim C6 as amended: calling twice in a row with the same successfully
captured stack gives, on the second call, `match_depth = trace_depth` and a
prefix with zero `>---` markers; when the filtered sequence has at least two
frames the prefix is four-space padding followed by one `|   `, while with
exactly one frame the second call is a root reset and the prefix is `@   `. -/
theorem claim_C6_amended (text1 text2 mp : String) (capture : List String)
    (s : TraceState)
    (hf : (_trace text1 mp true capture s).fallback = false) :
    (_trace text2 mp true capture (_trace text1 mp true capture s).state).fallback = false ∧
    (_trace text2 mp true capture (_trace text1 mp true capture s).state).match_depth =
      (_trace text2 mp true capture (_trace text1 mp true capture s).state).trace_depth ∧
    charCount (_trace text2 mp true capture
      (_trace text1 mp true capture s).state).depth_text '>' = 0 ∧
    (2 ≤ (walkedFrames capture).length →
      (_trace text2 mp true capture (_trace text1 mp true capture s).state).depth_text =
        strRepeat "    "
          ((_trace text2 mp true capture (_trace text1 mp true capture s).state).match_depth -
            (_trace text1 mp true capture s).state.basis_depth) ++ "|   ") ∧
    ((walkedFrames capture).length = 1 →
      (_trace text2 mp true capture (_trace text1 mp true capture s).state).depth_text =
        "@   ") := by
  have hw : walkedFrames capture ≠ [] := (trace_fallback_iff text1 mp capture s).mp hf
  set s1 := (_trace text1 mp true capture s).state with hs1
  have hlast : s1.last_trace = walkedFrames capture := trace_last_trace text1 mp capture s hw
  have hb1 : s1.basis_depth ≤ (walkedFrames capture).length - 1 :=
    trace_basis_le text1 mp capture s hw
  have hcpl : commonPrefixLen (walkedFrames capture) s1.last_trace =
      (walkedFrames capture).length := by
    rw [hlast, cpl_self]
  have hlen : 1 ≤ (walkedFrames capture).length := by
    have := walked_pos capture hw
    omega
  have hmin : min (commonPrefixLen (walkedFrames capture) s1.last_trace)
      ((walkedFrames capture).length - 1) = (walkedFrames capture).length - 1 := by
    rw [hcpl]
    omega
  have hmd : (_trace text2 mp true capture s1).match_depth =
      (walkedFrames capture).length - 1 := by
    rw [trace_match_depth text2 mp capture s1 hw, hmin]
  have htd : (_trace text2 mp true capture s1).trace_depth =
      (walkedFrames capture).length - 1 :=
    trace_trace_depth text2 mp capture s1 hw
  refine ⟨(trace_fallback_iff text2 mp capture s1).mpr hw, by rw [hmd, htd], ?_, ?_, ?_⟩
  · by_cases h2 : 2 ≤ (walkedFrames capture).length
    · have hnr : ¬ (min (commonPrefixLen (walkedFrames capture) s1.last_trace)
          ((walkedFrames capture).length - 1) = 0 ∨
          min (commonPrefixLen (walkedFrames capture) s1.last_trace)
            ((walkedFrames capture).length - 1) < s1.basis_depth) := by
        rw [hmin]
        omega
      rw [trace_dt_cont text2 mp capture s1 hw hnr, hmin]
      have hz : (walkedFrames capture).length - 1 -
          ((walkedFrames capture).length - 1) = 0 := by omega
      rw [hz]
      exact count_gt_cont _ 0
    · have h1 : (walkedFrames capture).length = 1 := by omega
      have hres : min (commonPrefixLen (walkedFrames capture) s1.last_trace)
          ((walkedFrames capture).length - 1) = 0 ∨
          min (commonPrefixLen (walkedFrames capture) s1.last_trace)
            ((walkedFrames capture).length - 1) < s1.basis_depth := by
        rw [hmin, h1]
        left
        rfl
      rw [trace_dt_reset text2 mp capture s1 hw hres]
      rcases List.length_eq_one.mp h1 with ⟨x, hx⟩
      rw [hx, fci_singleton]
      rw [if_pos rfl]
      rw [if_neg (by simp [hx])]
      decide
  · intro h2
    have hnr : ¬ (min (commonPrefixLen (walkedFrames capture) s1.last_trace)
        ((walkedFrames capture).length - 1) = 0 ∨
        min (commonPrefixLen (walkedFrames capture) s1.last_trace)
          ((walkedFrames capture).length - 1) < s1.basis_depth) := by
      rw [hmin]
      omega
    rw [trace_dt_cont text2 mp capture s1 hw hnr, hmin, hmd]
    have hz : (walkedFrames capture).length - 1 - ((walkedFrames capture).length - 1) = 0 := by
      omega
    rw [hz, strRepeat_zero, String.append_empty]
  · intro h1
    have hres : min (commonPrefixLen (walkedFrames capture) s1.last_trace)
        ((walkedFrames capture).length - 1) = 0 ∨
        min (commonPrefixLen (walkedFrames capture) s1.last_trace)
          ((walkedFrames capture).length - 1) < s1.basis_depth := by
      rw [hmin, h1]
      left
      rfl
    rw [trace_dt_reset text2 mp capture s1 hw hres]
    rcases List.length_eq_one.mp h1 with ⟨x, hx⟩
    rw [hx, fci_singleton]
    rw [if_pos rfl]
    rw [if_neg (by simp [hx])]

/-- Witness for the amended C6 at a concrete two-frame call pair. -/
theorem claim_C6_amended_witness :
    (_trace "y" "my" true ["leaf", "root"]
      (_trace "x" "my" true ["leaf", "root"] ⟨[], 0⟩).state).fallback = false ∧
    (_trace "y" "my" true ["leaf", "root"]
      (_trace "x" "my" true ["leaf", "root"] ⟨[], 0⟩).state).match_depth =
      (_trace "y" "my" true ["leaf", "root"]
        (_trace "x" "my" true ["leaf", "root"] ⟨[], 0⟩).state).trace_depth ∧
    charCount (_trace "y" "my" true ["leaf", "root"]
      (_trace "x" "my" true ["leaf", "root"] ⟨[], 0⟩).state).depth_text '>' = 0 ∧
    (2 ≤ (walkedFrames ["leaf", "root"]).length →
      (_trace "y" "my" true ["leaf", "root"]
        (_trace "x" "my" true ["leaf", "root"] ⟨[], 0⟩).state).depth_text =
        strRepeat "    "
          ((_trace "y" "my" true ["leaf", "root"]
            (_trace "x" "my" true ["leaf", "root"] ⟨[], 0⟩).state).match_depth -
            (_trace "x" "my" true ["leaf", "root"] ⟨[], 0⟩).state.basis_depth) ++ "|   ") ∧
    ((walkedFrames ["leaf", "root"]).length = 1 →
      (_trace "y" "my" true ["leaf", "root"]
        (_trace "x" "my" true ["leaf", "root"] ⟨[], 0⟩).state).depth_text = "@   ") :=
  claim_C6_amended "x" "y" "my" ["leaf", "root"] ⟨[], 0⟩ (by decide)

/-- Counterexample to claim C7 as stated: with retained frames (root-to-leaf)
`["fn: \x22m::a\x22", "fn: \x22m::b\x22", "q", "fn: \x22m::c\x22"]` the code
records `crate_depth = 1` (the first crate frame at a nonzero position,
scanning from the root), while the position of the first crate frame
scanning from the logging entry point outward toward the caller
(leaf-to-root) is `3`. -/
theorem claim_C7_counterexample :
    (_trace "t" "m" true ["fn: \"m::c\"", "q", "fn: \"m::b\"", "fn: \"m::a\""]
      ⟨[], 0⟩).fallback = false ∧
    (_trace "t" "m" true ["fn: \"m::c\"", "q", "fn: \"m::b\"", "fn: \"m::a\""]
      ⟨[], 0⟩).crate_depth = 1 ∧
    crateDepthClaim (crate_path "m")
      (walkedFrames ["fn: \"m::c\"", "q", "fn: \"m::b\"", "fn: \"m::a\""]) = 3 ∧
    (_trace "t" "m" true ["fn: \"m::c\"", "q", "fn: \"m::b\"", "fn: \"m::a\""]
      ⟨[], 0⟩).crate_depth ≠
      crateDepthClaim (crate_path "m")
        (walkedFrames ["fn: \"m::c\"", "q", "fn: \"m::b\"", "fn: \"m::a\""]) := by
  decide

/-- Claim C7 as amended: `crate_depth` is the position of the first frame at
a nonzero position, scanning from the root toward the call site
(root-to-leaf among retained frames), whose descriptor matches the caller's
crate pattern; it is 0 when no frame at a nonzero position matches (a match
at position 0 alone is not recorded). -/
theorem claim_C7_amended (text mp : String) (capture : List String) (s : TraceState) :
    (_trace text mp true capture s).crate_depth =
      crateDepthAmended (crate_path mp) (walkedFrames capture) := by
  by_cases hw : walkedFrames capture = []
  · rw [trace_empty_walk text mp capture s hw, hw]
    rfl
  · rw [trace_crate_depth text mp capture s hw, fci_eq_amended]

/-- Claim C8: filtering stops at the frame of the logging entry point
(matched by its qualified-name pattern); that frame and all frames below it
(the logging internals, i.e. the capture-order prefix) are excluded, and the
retained sequence is the reversal of the frames above it, so `frame[0]` is
the outermost retained frame. -/
theorem claim_C8 (text mp : String) (s : TraceState) (pre post : List String)
    (f : String)
    (hf : strContains f trace_path = true)
    (hpost : ∀ g ∈ post, strContains g trace_path = false)
    (hne : post ≠ []) :
    (_trace text mp true (pre ++ f :: post) s).fallback = false ∧
    (_trace text mp true (pre ++ f :: post) s).state.last_trace = post.reverse ∧
    (_trace text mp true (pre ++ f :: post) s).state.last_trace.head? = post.getLast? := by
  have hwalk : walkedFrames (pre ++ f :: post) = post.reverse := by
    unfold walkedFrames
    rw [List.reverse_append, List.reverse_cons, List.append_assoc, List.singleton_append]
    apply takeWhile_append_sat
    · intro a ha
      have := hpost a (List.mem_reverse.mp ha)
      simp [this]
    · simp [hf]
  have hw : walkedFrames (pre ++ f :: post) ≠ [] := by
    rw [hwalk]
    simpa using hne
  refine ⟨(trace_fallback_iff text mp (pre ++ f :: post) s).mpr hw, ?_, ?_⟩
  · rw [trace_last_trace text mp (pre ++ f :: post) s hw, hwalk]
  · rw [trace_last_trace text mp (pre ++ f :: post) s hw, hwalk, List.head?_reverse]

/-- Witness for C8 at a concrete captured stack. -/
theorem claim_C8_witness :
    (_trace "t" "my" true (["inner"] ++ "fn: \"trace::_trace\"" :: ["caller", "main"])
      ⟨[], 0⟩).fallback = false ∧
    (_trace "t" "my" true (["inner"] ++ "fn: \"trace::_trace\"" :: ["caller", "main"])
      ⟨[], 0⟩).state.last_trace = (["caller", "main"] : List String).reverse ∧
    (_trace "t" "my" true (["inner"] ++ "fn: \"trace::_trace\"" :: ["caller", "main"])
      ⟨[], 0⟩).state.last_trace.head? = (["caller", "main"] : List String).getLast? :=
  claim_C8 "t" "my" ⟨[], 0⟩ ["inner"] ["caller", "main"] "fn: \"trace::_trace\""
    (by decide) (by decide) (by decide)

lemma nl_data : ("\n" : String).data = ['\n'] := rfl

lemma contPad_nl_free (k : Nat) :
    ('\n' : Char) ∉ (strRepeat "    " k ++ "|   ").data :=
  nl_free_append _ _ (nl_free_rep _ (by decide) _) (by decide)

lemma contPad_no_marker (k : Nat) :
    charCount (strRepeat "    " k ++ "|   ") '>' = 0 := by
  rw [charCount_append, charCount_strRepeat]
  have h1 : charCount "    " '>' = 0 := by decide
  have h2 : charCount "|   " '>' = 0 := by decide
  rw [h1, h2]
  omega

/-- Claim C9: on every successful call, a message with `N` embedded line
breaks renders as exactly `N + 1` lines; the first line is the indentation
prefix followed by the message's first line, and every later line is
`(trace_depth - basis_depth)` four-space blocks and one `|   ` followed by
the corresponding message line, with no divergence markers in that
continuation prefix. -/
theorem claim_C9 (text mp : String) (capture : List String) (s : TraceState)
    (l0 : List Char) (rest : List (List Char))
    (hsplit : splitOnChar '\n' text.data = l0 :: rest)
    (hf : (_trace text mp true capture s).fallback = false) :
    splitOnChar '\n' (_trace text mp true capture s).rendered.data =
      ((_trace text mp true capture s).depth_text.data ++ l0) ::
        rest.map (fun l =>
          (strRepeat "    " ((_trace text mp true capture s).trace_depth -
            (_trace text mp true capture s).state.basis_depth) ++ "|   ").data ++ l) ∧
    (splitOnChar '\n' (_trace text mp true capture s).rendered.data).length =
      charCount text '\n' + 1 ∧
    charCount (strRepeat "    " ((_trace text mp true capture s).trace_depth -
      (_trace text mp true capture s).state.basis_depth) ++ "|   ") '>' = 0 := by
  have hw : walkedFrames capture ≠ [] := (trace_fallback_iff text mp capture s).mp hf
  rw [trace_trace_depth text mp capture s hw,
    trace_rendered text mp capture s hw]
  have hdtnl := trace_dt_nl_free text mp capture s hw
  have hlen0 : (l0 :: rest).length = text.data.count '\n' + 1 := by
    rw [← hsplit, soc_length]
  by_cases hnl : strContainsChar text '\n' = true
  · have hbody : renderBody text ((walkedFrames capture).length - 1)
        (_trace text mp true capture s).state.basis_depth =
        replaceChar text '\n' ("\n" ++ (strRepeat "    "
          ((walkedFrames capture).length - 1 -
            (_trace text mp true capture s).state.basis_depth) ++ "|   ")) := by
      unfold renderBody
      rw [if_pos hnl, String.append_assoc]
    have hrd : ("\n" ++ (strRepeat "    " ((walkedFrames capture).length - 1 -
        (_trace text mp true capture s).state.basis_depth) ++ "|   ")).data =
        '\n' :: (strRepeat "    " ((walkedFrames capture).length - 1 -
          (_trace text mp true capture s).state.basis_depth) ++ "|   ").data := by
      rw [String.data_append, nl_data, List.singleton_append]
    have hrepl : (replaceChar text '\n' ("\n" ++ (strRepeat "    "
        ((walkedFrames capture).length - 1 -
          (_trace text mp true capture s).state.basis_depth) ++ "|   "))).data =
        (text.data.map (fun ch => if ch = '\n' then
          '\n' :: (strRepeat "    " ((walkedFrames capture).length - 1 -
            (_trace text mp true capture s).state.basis_depth) ++ "|   ").data
          else [ch])).flatten := by
      unfold replaceChar
      simp only [hrd]
    have hsoc := soc_replace '\n'
      (strRepeat "    " ((walkedFrames capture).length - 1 -
        (_trace text mp true capture s).state.basis_depth) ++ "|   ").data
      (contPad_nl_free _) text.data l0 rest hsplit
    have hmain : splitOnChar '\n'
        ((_trace text mp true capture s).depth_text ++
          renderBody text ((walkedFrames capture).length - 1)
            (_trace text mp true capture s).state.basis_depth).data =
        ((_trace text mp true capture s).depth_text.data ++ l0) ::
          rest.map (fun l =>
            (strRepeat "    " ((walkedFrames capture).length - 1 -
              (_trace text mp true capture s).state.basis_depth) ++ "|   ").data ++ l) := by
      rw [String.data_append, hbody, hrepl]
      exact soc_append '\n' _ hdtnl _ _ _ hsoc
    refine ⟨hmain, ?_, contPad_no_marker _⟩
    rw [hmain]
    simp only [List.length_cons, List.length_map]
    simp only [List.length_cons] at hlen0
    simpa [charCount] using hlen0
  · have hnl' : strContainsChar text '\n' = false := by
      simpa using hnl
    have hmem : ('\n' : Char) ∉ text.data := (strContainsChar_false_iff text '\n').mp hnl'
    have hbody : renderBody text ((walkedFrames capture).length - 1)
        (_trace text mp true capture s).state.basis_depth = text := by
      unfold renderBody
      rw [if_neg (by simp [hnl'])]
    have hone : splitOnChar '\n' text.data = [text.data] := soc_not_mem '\n' text.data hmem
    have hl0 : l0 = text.data ∧ rest = [] := by
      rw [hsplit] at hone
      cases hone
      exact ⟨rfl, rfl⟩
    rcases hl0 with ⟨rfl, rfl⟩
    have hmain : splitOnChar '\n'
        ((_trace text mp true capture s).depth_text ++
          renderBody text ((walkedFrames capture).length - 1)
            (_trace text mp true capture s).state.basis_depth).data =
        ((_trace text mp true capture s).depth_text.data ++ text.data) :: [] := by
      rw [String.data_append, hbody]
      exact soc_append '\n' _ hdtnl _ _ _ hone
    refine ⟨by rw [hmain]; simp, ?_, contPad_no_marker _⟩
    rw [hmain]
    have hcnt : text.data.count '\n' = 0 := List.count_eq_zero.mpr hmem
    simp [charCount, hcnt]

/-- Witness for C9 at a concrete two-line message. -/
theorem claim_C9_witness :
    splitOnChar '\n' (_trace "a\nb" "my" true ["l3", "l2", "l1"] ⟨[], 0⟩).rendered.data =
      ((_trace "a\nb" "my" true ["l3", "l2", "l1"] ⟨[], 0⟩).depth_text.data ++ ['a']) ::
        ([['b']] : List (List Char)).map (fun l =>
          (strRepeat "    " ((_trace "a\nb" "my" true ["l3", "l2", "l1"] ⟨[], 0⟩).trace_depth -
            (_trace "a\nb" "my" true ["l3", "l2", "l1"] ⟨[], 0⟩).state.basis_depth) ++
            "|   ").data ++ l) ∧
    (splitOnChar '\n'
      (_trace "a\nb" "my" true ["l3", "l2", "l1"] ⟨[], 0⟩).rendered.data).length =
      charCount "a\nb" '\n' + 1 ∧
    charCount (strRepeat "    "
      ((_trace "a\nb" "my" true ["l3", "l2", "l1"] ⟨[], 0⟩).trace_depth -
        (_trace "a\nb" "my" true ["l3", "l2", "l1"] ⟨[], 0⟩).state.basis_depth) ++
      "|   ") '>' = 0 :=
  claim_C9 "a\nb" "my" ["l3", "l2", "l1"] ⟨[], 0⟩ ['a'] [['b']] (by decide) (by decide)

/-- Claim C10: from the initial state, every call preserves the invariant
that `basis_depth` points strictly inside the stored trace whenever one is
stored (and is 0 when none is), and on the successful path every truncated
subtraction performed by the renderer has minuend at least subtrahend: the
final `basis_depth` is at most `trace_depth` (covering
`trace_depth - basis_depth` and, when `trace_depth > basis_depth`,
`trace_depth - basis_depth - 1`), and on the continuing branch the prior
`basis_depth` is at most `match_depth`, which is at most `trace_depth`
(covering `match_depth - basis_depth` and `trace_depth - match_depth`). -/
theorem claim_C10 :
    Invariant initState ∧
    ∀ (text mp : String) (captured : Bool) (capture : List String) (s : TraceState),
      Invariant s →
      Invariant (_trace text mp captured capture s).state ∧
      ((_trace text mp captured capture s).fallback = false →
        (_trace text mp captured capture s).state.basis_depth ≤
          (_trace text mp captured capture s).trace_depth ∧
        ((_trace text mp captured capture s).is_reset = false →
          s.basis_depth ≤ (_trace text mp captured capture s).match_depth ∧
          (_trace text mp captured capture s).match_depth ≤
            (_trace text mp captured capture s).trace_depth)) := by
  constructor
  · exact ⟨fun habs => absurd rfl habs, fun _ => rfl⟩
  · intro text mp captured capture s hs
    cases captured with
    | false =>
      rw [trace_not_captured]
      exact ⟨hs, by intro habs; simp at habs⟩
    | true =>
      by_cases hw : walkedFrames capture = []
      · rw [trace_empty_walk text mp capture s hw]
        exact ⟨hs, by intro habs; simp at habs⟩
      · have hb := trace_basis_le text mp capture s hw
        have hl := walked_pos capture hw
        constructor
        · constructor
          · intro _
            rw [trace_last_trace text mp capture s hw]
            omega
          · intro habs
            rw [trace_last_trace text mp capture s hw] at habs
            exact absurd habs hw
        · intro _
          refine ⟨by rw [trace_trace_depth text mp capture s hw]; exact hb, ?_⟩
          intro hres
          have hnr : ¬ (min (commonPrefixLen (walkedFrames capture) s.last_trace)
              ((walkedFrames capture).length - 1) = 0 ∨
              min (commonPrefixLen (walkedFrames capture) s.last_trace)
                ((walkedFrames capture).length - 1) < s.basis_depth) := by
            intro hr
            rw [(trace_reset_iff text mp capture s hw).mpr hr] at hres
            simp at hres
          push_neg at hnr
          rw [trace_match_depth text mp capture s hw, trace_trace_depth text mp capture s hw]
          exact ⟨hnr.2, Nat.min_le_right _ _⟩

/-- Witness for C10 at a concrete state satisfying the invariant. -/
theorem claim_C10_witness :
    Invariant (_trace "t" "m" true ["b", "a"] ⟨["a"], 0⟩).state ∧
    ((_trace "t" "m" true ["b", "a"] ⟨["a"], 0⟩).fallback = false →
      (_trace "t" "m" true ["b", "a"] ⟨["a"], 0⟩).state.basis_depth ≤
        (_trace "t" "m" true ["b", "a"] ⟨["a"], 0⟩).trace_depth ∧
      ((_trace "t" "m" true ["b", "a"] ⟨["a"], 0⟩).is_reset = false →
        (TraceState.mk ["a"] 0).basis_depth ≤
          (_trace "t" "m" true ["b", "a"] ⟨["a"], 0⟩).match_depth ∧
        (_trace "t" "m" true ["b", "a"] ⟨["a"], 0⟩).match_depth ≤
          (_trace "t" "m" true ["b", "a"] ⟨["a"], 0⟩).trace_depth)) :=
  claim_C10.2 "t" "m" true ["b", "a"] ⟨["a"], 0⟩ (by decide)
